import Mathlib

/-!
# SinkFacility (cycamore) : request / acceptance protocol

A shallow embedding of `src/Models/SinkFacility/sink_facility.cc`.

* `double` values are exact rationals (`ℚ`); the division by
  `in_commods_.size()` is rational division, which agrees with the code
  whenever the commodity list is non-empty.
* `std::vector` is `List`; a `std::set` of portfolio pointers, which holds at
  most one element in this file, is a `List` as well.
* An uncaught C++ exception is a `thrown` flag next to the state reached at
  the point of the throw.
* Logging, the facility name / id and the other base-class members of
  `cyclus::FacilityModel` do not influence any modelled value and are left out.
-/

namespace cycamore

/-! ## Resources, requests, portfolios (cyclus types used by the facility) -/

/-- Modelled from the spec: `cyclus::Material`, a typed resource unit; only its
quantity matters for capacity accounting. -/
structure Material where
  quantity : ℚ
deriving DecidableEq, Repr

/-- Modelled from the spec: `cyclus::GenericResource`, an untyped resource unit
(quantity + quality label + unit label). -/
structure GenericResource where
  quantity : ℚ
  quality : String
  units : String
deriving DecidableEq, Repr

/-- Modelled from the spec: `Material::CreateBlank(qty)`, a blank material
placeholder of the given quantity. -/
def Material.CreateBlank (qty : ℚ) : Material := ⟨qty⟩

/-- Modelled from the spec: `GenericResource::CreateUntracked(qty, quality, units)`. -/
def GenericResource.CreateUntracked (qty : ℚ) (quality units : String) :
    GenericResource := ⟨qty, quality, units⟩

/-- Modelled from the spec: `cyclus::Request<T>(target, requester, commodity)`,
one request line: the placeholder resource and the commodity name it is tagged
with (the requester is always `this`). -/
structure Request (α : Type) where
  target : α
  commodity : String
deriving DecidableEq, Repr

/-- Modelled from the spec: `cyclus::RequestPortfolio<T>`: the capacity
constraints added with `AddConstraint` (each a `CapacityConstraint<T>` given by
its value) and the request lines added with `AddRequest`, in insertion order. -/
structure RequestPortfolio (α : Type) where
  constraints : List ℚ
  requests : List (Request α)
deriving DecidableEq, Repr

/-- A freshly allocated portfolio, `new RequestPortfolio<T>()`. -/
def RequestPortfolio.empty {α : Type} : RequestPortfolio α := ⟨[], []⟩

/-- Modelled from the spec: `RequestPortfolio<T>::AddConstraint`. -/
def RequestPortfolio.AddConstraint {α : Type} (p : RequestPortfolio α) (cc : ℚ) :
    RequestPortfolio α :=
  { p with constraints := p.constraints ++ [cc] }

/-- Modelled from the spec: `RequestPortfolio<T>::AddRequest`. -/
def RequestPortfolio.AddRequest {α : Type} (p : RequestPortfolio α) (r : Request α) :
    RequestPortfolio α :=
  { p with requests := p.requests ++ [r] }

/-- Modelled from the spec: `cyclus::Trade<T>`, the matcher's record of a fill:
the request line it answers and the filled amount. -/
structure Trade (α : Type) where
  request : Request α
  amt : ℚ
deriving DecidableEq, Repr

/-! ## Bounded inventory (`cyclus::ResourceBuff`) -/

/-- Modelled from the spec: `cyclus::ResourceBuff` (§3 Bounded Inventory): the
quantities of the resource units pushed so far, oldest first, and the fixed
maximum capacity. -/
structure ResourceBuff where
  mats_ : List ℚ
  capacity_ : ℚ
deriving DecidableEq, Repr

namespace ResourceBuff

/-- Modelled from the spec: `ResourceBuff::quantity()`, the sum of all resource
units currently pushed in (`held_quantity`). -/
def quantity (b : ResourceBuff) : ℚ := b.mats_.sum

/-- Modelled from the spec: `ResourceBuff::capacity()`. -/
def capacity (b : ResourceBuff) : ℚ := b.capacity_

/-- Modelled from the spec: `ResourceBuff::space()` = `capacity − held_quantity`. -/
def space (b : ResourceBuff) : ℚ := b.capacity - b.quantity

/-- Modelled from the spec: `ResourceBuff::set_capacity(cap)`. -/
def set_capacity (b : ResourceBuff) (cap : ℚ) : ResourceBuff :=
  { b with capacity_ := cap }

/-- Modelled from the spec: `ResourceBuff::Push(r)` (§3, §4.3): a push that
would take `held_quantity` above `capacity` fails loudly (`none`, the buffer is
not changed); otherwise the unit is added and `held_quantity` grows by its
quantity. -/
def Push (b : ResourceBuff) (q : ℚ) : Option ResourceBuff :=
  if b.quantity + q > b.capacity then none
  else some { b with mats_ := b.mats_ ++ [q] }

end ResourceBuff

/-! ## The facility -/

/-- Value of `std::numeric_limits<double>::max()`, `(2 − 2⁻⁵²)·2¹⁰²³`. -/
def numeric_limits_double_max : ℚ := 2 ^ 1024 - 2 ^ 971

/-- Data members of `SinkFacility` used in `sink_facility.cc`. -/
structure SinkFacility where
  in_commods_ : List String
  capacity_ : ℚ
  inventory_ : ResourceBuff
  commod_price_ : ℚ
deriving DecidableEq, Repr

/-- `SinkFacility::SinkFacility(ctx)` as called by `ConstructSinkFacility`
(lines 19-23, 243-245): `commod_price_(0)`,
`capacity_(numeric_limits<double>::max())`; the other members are
constructed by default: no commodity, and an inventory that is, in the words
of the spec (§3), created empty with capacity "unbounded", the maximum
representable value. -/
def ConstructSinkFacility : SinkFacility :=
  { in_commods_ := []
    capacity_ := numeric_limits_double_max
    inventory_ := ⟨[], numeric_limits_double_max⟩
    commod_price_ := 0 }

namespace SinkFacility

/-- Modelled from the spec: `AddCommodity(name)` (declared in the header):
appends to the accepted-commodity list, insertion order preserved. -/
def AddCommodity (f : SinkFacility) (name : String) : SinkFacility :=
  { f with in_commods_ := f.in_commods_ ++ [name] }

/-- Modelled from the spec: `set_capacity(c)` (header): sets the per-period
throughput capacity. -/
def set_capacity (f : SinkFacility) (c : ℚ) : SinkFacility :=
  { f with capacity_ := c }

/-- Modelled from the spec: `capacity()` (header). -/
def capacity (f : SinkFacility) : ℚ := f.capacity_

/-- Modelled from the spec: `SetMaxInventorySize(size)` (header): the inventory
capacity equals `max_inventory_size`. -/
def SetMaxInventorySize (f : SinkFacility) (size : ℚ) : SinkFacility :=
  { f with inventory_ := f.inventory_.set_capacity size }

/-- Modelled from the spec: `MaxInventorySize()` (header). -/
def MaxInventorySize (f : SinkFacility) : ℚ := f.inventory_.capacity

/-- Modelled from the spec: `InventorySize()` (header), the held quantity. -/
def InventorySize (f : SinkFacility) : ℚ := f.inventory_.quantity

/-- `SinkFacility::RequestAmt_` (lines 226-240).  The local `requestAmt` is
declared without initialiser and assigned by an `if / else if / else if` chain
with no final `else`; `none` stands for returning the unassigned local. -/
def RequestAmt_ (f : SinkFacility) : Option ℚ :=
  let space := f.inventory_.space
  if space ≤ 0 then
    some 0
  else if space < f.capacity_ then
    some (space / (f.in_commods_.length : ℚ))
  else if space ≥ f.capacity_ then
    some (f.capacity_ / (f.in_commods_.length : ℚ))
  else
    none

end SinkFacility

/-- `SinkFacility::InitModuleMembers` reads three things from its query engine:
the contents of the `incommodity` entries below `input/commodities` (document
order, `NElementsMatchingQuery` of them), the optional `input_capacity` and the
optional `inventorysize`.  This record is that descriptor. -/
structure QueryEngine where
  incommodity : List String
  input_capacity : Option ℚ
  inventorysize : Option ℚ
deriving DecidableEq, Repr

/-- Modelled from the spec: `cyclus::GetOptionalQuery<double>(qe, name, dflt)`:
the value when the optional element is present, the default otherwise. -/
def GetOptionalQuery (value : Option ℚ) (dflt : ℚ) : ℚ := value.getD dflt

namespace SinkFacility

/-- `SinkFacility::InitModuleMembers` (lines 47-71): one `AddCommodity` per
`incommodity` entry, for `i = 0 .. nCommodities - 1`, then `set_capacity` and
`SetMaxInventorySize` with `numeric_limits<double>::max()` as default.  The
body has no check on `nCommodities` and no `throw`. -/
def InitModuleMembers (f : SinkFacility) (qe : QueryEngine) : SinkFacility :=
  let f := qe.incommodity.foldl (fun g name => g.AddCommodity name) f
  let capacity := GetOptionalQuery qe.input_capacity numeric_limits_double_max
  let f := f.set_capacity capacity
  let size := GetOptionalQuery qe.inventorysize numeric_limits_double_max
  f.SetMaxInventorySize size

/-- `SinkFacility::Clone` (lines 94-103).  `new SinkFacility(*this)` is the
copy constructor; the implementation file defines no copy constructor (its only
constructor takes a `Context*`), so it is the implicit member-wise copy and the
new object starts with a copy of every data member, `inventory_` included.
`InitFrom` touches base-class members only.  Then the three explicit
assignments of the body. -/
def Clone (f : SinkFacility) : SinkFacility :=
  let m : SinkFacility := f
  let m := m.set_capacity f.capacity
  let m := m.SetMaxInventorySize f.MaxInventorySize
  { m with in_commods_ := f.in_commods_ }

/-- `SinkFacility::AddMatlRequests` (lines 106-132); `eps` is the value of
`cyclus::eps()`.  `none` only if `RequestAmt_` returns its unassigned local. -/
def AddMatlRequests (eps : ℚ) (f : SinkFacility) :
    Option (List (RequestPortfolio Material)) :=
  match f.RequestAmt_ with
  | none => none
  | some amt =>
    let ports : List (RequestPortfolio Material) := []
    let port : RequestPortfolio Material := RequestPortfolio.empty
    let mat := Material.CreateBlank amt
    if amt > eps then
      let port := port.AddConstraint amt
      let port := f.in_commods_.foldl (fun p it => p.AddRequest ⟨mat, it⟩) port
      some (ports ++ [port])
    else
      some ports

/-- `SinkFacility::AddGenRsrcRequests` (lines 135-166): as `AddMatlRequests`,
with one untracked generic resource of quantity `amt` and empty quality and
units labels created per request line. -/
def AddGenRsrcRequests (eps : ℚ) (f : SinkFacility) :
    Option (List (RequestPortfolio GenericResource)) :=
  match f.RequestAmt_ with
  | none => none
  | some amt =>
    let ports : List (RequestPortfolio GenericResource) := []
    let port : RequestPortfolio GenericResource := RequestPortfolio.empty
    if amt > eps then
      let port := port.AddConstraint amt
      let port := f.in_commods_.foldl
        (fun p it =>
          let quality := ""
          let units := ""
          let rsrc := GenericResource.CreateUntracked amt quality units
          p.AddRequest ⟨rsrc, it⟩) port
      some (ports ++ [port])
    else
      some ports

end SinkFacility

/-- Result of a member function that may leave by an exception: the facility
state when control leaves the function, and whether it left by a throw. -/
structure Outcome where
  state : SinkFacility
  thrown : Bool
deriving DecidableEq, Repr

namespace SinkFacility

/-- `SinkFacility::AcceptMatlTrades` (lines 169-179): `inventory_.Push` of the
resource of every response, in order; a failing push throws out of the loop. -/
def AcceptMatlTrades (f : SinkFacility) :
    List (Trade Material × Material) → Outcome
  | [] => ⟨f, false⟩
  | it :: rest =>
    match f.inventory_.Push it.2.quantity with
    | none => ⟨f, true⟩
    | some inv => AcceptMatlTrades { f with inventory_ := inv } rest

/-- `SinkFacility::AcceptGenRsrcTrades` (lines 182-190). -/
def AcceptGenRsrcTrades (f : SinkFacility) :
    List (Trade GenericResource × GenericResource) → Outcome
  | [] => ⟨f, false⟩
  | it :: rest =>
    match f.inventory_.Push it.2.quantity with
    | none => ⟨f, true⟩
    | some inv => AcceptGenRsrcTrades { f with inventory_ := inv } rest

end SinkFacility

/-- The loop shared by both accept functions, on the quantities of the
resources pushed: push each in order, leave at the first failing push. -/
def pushAll (f : SinkFacility) : List ℚ → Outcome
  | [] => ⟨f, false⟩
  | q :: rest =>
    match f.inventory_.Push q with
    | none => ⟨f, true⟩
    | some inv => pushAll { f with inventory_ := inv } rest

/-- The assignment chain of `RequestAmt_` (lines 232-238) on values of an
arbitrary ordered field: `if / else if / else if` with no final `else`; `none`
is the case in which no branch assigns `requestAmt`. -/
def requestAmtChain {K : Type} [LinearOrderedField K] (space capacity_ : K) (size : ℕ) :
    Option K :=
  if space ≤ 0 then
    some 0
  else if space < capacity_ then
    some (space / (size : K))
  else if space ≥ capacity_ then
    some (capacity_ / (size : K))
  else
    none

/-- One `LOG(level, "SnkFac") << ...` statement of the period hooks, by its
content (the facility name and id are base-class data and are left out). -/
inductive LogMsg where
  | is_ticking
  | will_request (requestAmt : ℚ) (commod : String)
  | is_tocking
  | is_holding (quantity : ℚ) (time : Int)
  | closing
deriving DecidableEq, Repr

namespace SinkFacility

/-- `SinkFacility::HandleTick` (lines 193-209): computes `RequestAmt_` and, if
it exceeds `eps`, logs one line per accepted commodity.  Returns the facility
state after the call and the lines logged; `none` only if `RequestAmt_`
returns its unassigned local. -/
def HandleTick (eps : ℚ) (f : SinkFacility) (_time : Int) :
    Option (SinkFacility × List LogMsg) :=
  match f.RequestAmt_ with
  | none => none
  | some requestAmt =>
    let log := [LogMsg.is_ticking]
    let log :=
      if requestAmt > eps then
        f.in_commods_.foldl (fun l commod => l ++ [LogMsg.will_request requestAmt commod]) log
      else log
    some (f, log ++ [LogMsg.closing])

/-- `SinkFacility::HandleTock` (lines 212-223): logs the held quantity and the
time.  Returns the facility state after the call and the lines logged. -/
def HandleTock (f : SinkFacility) (time : Int) : SinkFacility × List LogMsg :=
  (f, [LogMsg.is_tocking, LogMsg.is_holding f.inventory_.quantity time, LogMsg.closing])

end SinkFacility

/-- The facility objects allocated with `new`, addressed by position: two
facilities are distinct objects, each with its own `inventory_` member (the
code accesses it as `inventory_.`, a member held by value). -/
structure Heap where
  objs : List SinkFacility
deriving DecidableEq, Repr

namespace Heap

/-- The object at an address, if one is allocated there. -/
def deref (h : Heap) (a : ℕ) : Option SinkFacility := h.objs[a]?

/-- The call `a->Clone()`: `SinkFacility::Clone` run on the object at `a`; the
object it allocates with `new` gets a fresh address, which is returned. -/
def Clone (h : Heap) (a : ℕ) : Option (Heap × ℕ) :=
  match h.deref a with
  | none => none
  | some f => some (⟨h.objs ++ [f.Clone]⟩, h.objs.length)

/-- The call `a->AcceptMatlTrades(responses)`: the object at `a` is replaced by
its state after the call; the flag tells whether the call threw. -/
def AcceptMatlTrades (h : Heap) (a : ℕ) (responses : List (Trade Material × Material)) :
    Option (Heap × Bool) :=
  match h.deref a with
  | none => none
  | some f =>
    some (⟨h.objs.set a (f.AcceptMatlTrades responses).state⟩,
      (f.AcceptMatlTrades responses).thrown)

/-- The call `a->AcceptGenRsrcTrades(responses)`. -/
def AcceptGenRsrcTrades (h : Heap) (a : ℕ)
    (responses : List (Trade GenericResource × GenericResource)) : Option (Heap × Bool) :=
  match h.deref a with
  | none => none
  | some f =>
    some (⟨h.objs.set a (f.AcceptGenRsrcTrades responses).state⟩,
      (f.AcceptGenRsrcTrades responses).thrown)

/-- The `held_quantity` of the object at an address. -/
def held_quantity (h : Heap) (a : ℕ) : Option ℚ :=
  (h.deref a).map SinkFacility.InventorySize

end Heap

/-! ## Vocabulary of the specification -/

/-- The Throughput Policy in the words of the spec (§2): the smaller of the
remaining inventory space and the per-period capacity limit, divided evenly
across the commodity list. -/
def specThroughputPolicy (space throughput_capacity : ℚ) (n : ℕ) : ℚ :=
  min space throughput_capacity / (n : ℚ)

/-- Quantity requested by one portfolio, summed over its request lines. -/
def requestedMatl (p : RequestPortfolio Material) : ℚ :=
  (p.requests.map fun r => r.target.quantity).sum

/-- Quantity requested by one portfolio, summed over its request lines. -/
def requestedGenRsrc (p : RequestPortfolio GenericResource) : ℚ :=
  (p.requests.map fun r => r.target.quantity).sum

/-- Total quantity of a sequence of material responses. -/
def matlTotal (responses : List (Trade Material × Material)) : ℚ :=
  (responses.map fun it => it.2.quantity).sum

/-- Total quantity of a sequence of generic-resource responses. -/
def genRsrcTotal (responses : List (Trade GenericResource × GenericResource)) : ℚ :=
  (responses.map fun it => it.2.quantity).sum

/-- The matcher respects the emitted portfolios: fills of total `total` are
given only when a portfolio was emitted, and stay within every capacity
constraint of every emitted portfolio. -/
def RespectsConstraints {α : Type} (ports : List (RequestPortfolio α))
    (nfills : ℕ) (total : ℚ) : Prop :=
  (ports = [] → nfills = 0) ∧ ∀ p ∈ ports, ∀ cc ∈ p.constraints, total ≤ cc

/-! ## Theorems -/

/-- C1: for a facility with `n ≥ 1` commodities, inventory space `s` and
throughput capacity `c`, `RequestAmt_` returns `0` if `s ≤ 0`, `s / n` if
`0 < s < c`, and `c / n` otherwise; at `s = c > 0` it returns `c / n`. -/
theorem RequestAmt_cases (f : SinkFacility) (_hn : 1 ≤ f.in_commods_.length) :
    (f.inventory_.space ≤ 0 → f.RequestAmt_ = some 0) ∧
    (0 < f.inventory_.space → f.inventory_.space < f.capacity_ →
      f.RequestAmt_ = some (f.inventory_.space / (f.in_commods_.length : ℚ))) ∧
    (0 < f.inventory_.space → ¬ f.inventory_.space < f.capacity_ →
      f.RequestAmt_ = some (f.capacity_ / (f.in_commods_.length : ℚ))) ∧
    (f.inventory_.space = f.capacity_ → 0 < f.capacity_ →
      f.RequestAmt_ = some (f.capacity_ / (f.in_commods_.length : ℚ))) := by
  refine ⟨?_, ?_, ?_, ?_⟩
  · intro h
    simp [SinkFacility.RequestAmt_, h]
  · intro h0 h1
    simp [SinkFacility.RequestAmt_, not_le.mpr h0, h1]
  · intro h0 h1
    simp [SinkFacility.RequestAmt_, not_le.mpr h0, h1, not_lt.mp h1]
  · intro h0 h1
    have h2 : ¬ f.inventory_.space ≤ 0 := by rw [h0]; exact not_le.mpr h1
    have h3 : ¬ f.inventory_.space < f.capacity_ := by rw [h0]; exact lt_irrefl _
    simp [SinkFacility.RequestAmt_, h2, h3, not_lt.mp h3]

/-- Witness for `RequestAmt_cases`: scenario 1 of the spec, throughput 100,
max inventory 100, one commodity, empty inventory: the tie goes to the
throughput branch and the request is 100. -/
theorem RequestAmt_cases_witness :
    (1 ≤ (["A"] : List String).length) ∧
    SinkFacility.RequestAmt_ ⟨["A"], 100, ⟨[], 100⟩, 0⟩ = some (100 / ((1 : ℕ) : ℚ)) :=
  ⟨by decide,
   (RequestAmt_cases ⟨["A"], 100, ⟨[], 100⟩, 0⟩ (by decide)).2.2.2
     (by simp [ResourceBuff.space, ResourceBuff.capacity, ResourceBuff.quantity])
     (by norm_num)⟩

/-- C2: with `held_quantity ≤ capacity`, `throughput_capacity > 0` and `n ≥ 1`
commodities, `RequestAmt_` equals the spec's policy
`min(space, throughput_capacity) / n`. -/
theorem RequestAmt_eq_specThroughputPolicy (f : SinkFacility)
    (hheld : f.inventory_.quantity ≤ f.inventory_.capacity)
    (hcap : 0 < f.capacity_) (_hn : 1 ≤ f.in_commods_.length) :
    f.RequestAmt_ =
      some (specThroughputPolicy f.inventory_.space f.capacity_ f.in_commods_.length) := by
  have hs : 0 ≤ f.inventory_.space := by
    unfold ResourceBuff.space; linarith
  unfold SinkFacility.RequestAmt_ specThroughputPolicy
  by_cases h0 : f.inventory_.space ≤ 0
  · have hz : f.inventory_.space = 0 := le_antisymm h0 hs
    simp [hz, min_eq_left hcap.le]
  · by_cases h1 : f.inventory_.space < f.capacity_
    · simp [h0, h1, min_eq_left h1.le]
    · simp [h0, h1, not_lt.mp h1, min_eq_right (not_lt.mp h1)]

/-- Witness for `RequestAmt_eq_specThroughputPolicy`: scenario 3 of the spec,
throughput 50, space 100, two commodities gives 25. -/
theorem RequestAmt_eq_specThroughputPolicy_witness :
    SinkFacility.RequestAmt_ ⟨["A", "B"], 50, ⟨[], 100⟩, 0⟩ = some 25 := by
  have h := RequestAmt_eq_specThroughputPolicy ⟨["A", "B"], 50, ⟨[], 100⟩, 0⟩
    (by simp [ResourceBuff.capacity, ResourceBuff.quantity]) (by norm_num) (by decide)
  rw [h]
  simp [specThroughputPolicy, ResourceBuff.space, ResourceBuff.capacity,
    ResourceBuff.quantity]
  norm_num

/-! ### Request emission -/

/-- The request loop appends one line per commodity, in list order. -/
theorem foldl_AddRequest {α : Type} (mk : String → Request α) (commods : List String)
    (p : RequestPortfolio α) :
    commods.foldl (fun q it => q.AddRequest (mk it)) p =
      ⟨p.constraints, p.requests ++ commods.map mk⟩ := by
  induction commods generalizing p with
  | nil => simp
  | cons c cs ih =>
    rw [List.foldl_cons, ih]
    simp [RequestPortfolio.AddRequest]

/-- Value of `AddMatlRequests` once the request amount is known. -/
theorem AddMatlRequests_of_amt (eps : ℚ) (f : SinkFacility) (amt : ℚ)
    (h : f.RequestAmt_ = some amt) :
    f.AddMatlRequests eps =
      some (if amt > eps then
        [⟨[amt], f.in_commods_.map fun c => ⟨Material.CreateBlank amt, c⟩⟩]
      else []) := by
  unfold SinkFacility.AddMatlRequests
  rw [h]
  by_cases ha : amt > eps
  · simp only [ha, if_true]
    rw [foldl_AddRequest (fun c => ⟨Material.CreateBlank amt, c⟩)]
    simp [RequestPortfolio.AddConstraint, RequestPortfolio.empty]
  · simp [ha]

/-- Value of `AddGenRsrcRequests` once the request amount is known. -/
theorem AddGenRsrcRequests_of_amt (eps : ℚ) (f : SinkFacility) (amt : ℚ)
    (h : f.RequestAmt_ = some amt) :
    f.AddGenRsrcRequests eps =
      some (if amt > eps then
        [⟨[amt], f.in_commods_.map fun c =>
          ⟨GenericResource.CreateUntracked amt "" "", c⟩⟩]
      else []) := by
  unfold SinkFacility.AddGenRsrcRequests
  rw [h]
  by_cases ha : amt > eps
  · simp only [ha, if_true]
    rw [foldl_AddRequest (fun c => ⟨GenericResource.CreateUntracked amt "" "", c⟩)]
    simp [RequestPortfolio.AddConstraint, RequestPortfolio.empty]
  · simp [ha]

/-- C3: when `RequestAmt_` returns `amt > eps`, `AddMatlRequests` and
`AddGenRsrcRequests` each return exactly one portfolio, carrying exactly one
capacity constraint, of value `amt`, and one request line per entry of the
accepted-commodity list (duplicates included), in list order, each tagged with
that entry's name and requesting quantity `amt`. -/
theorem AddRequests_single_portfolio (eps : ℚ) (f : SinkFacility) (amt : ℚ)
    (hamt : f.RequestAmt_ = some amt) (hpos : amt > eps) :
    (∃ p, f.AddMatlRequests eps = some [p] ∧ p.constraints = [amt] ∧
        p.requests.length = f.in_commods_.length ∧
        p.requests.map (fun r => r.commodity) = f.in_commods_ ∧
        ∀ r ∈ p.requests, r.target.quantity = amt) ∧
    (∃ p, f.AddGenRsrcRequests eps = some [p] ∧ p.constraints = [amt] ∧
        p.requests.length = f.in_commods_.length ∧
        p.requests.map (fun r => r.commodity) = f.in_commods_ ∧
        ∀ r ∈ p.requests, r.target.quantity = amt) := by
  constructor
  · refine ⟨⟨[amt], f.in_commods_.map fun c => ⟨Material.CreateBlank amt, c⟩⟩,
      ?_, rfl, ?_, ?_, ?_⟩
    · rw [AddMatlRequests_of_amt eps f amt hamt, if_pos hpos]
    · simp
    · simp [Function.comp_def]
    · intro r hr
      simp only [List.mem_map] at hr
      obtain ⟨c, _, rfl⟩ := hr
      rfl
  · refine ⟨⟨[amt], f.in_commods_.map fun c =>
      ⟨GenericResource.CreateUntracked amt "" "", c⟩⟩, ?_, rfl, ?_, ?_, ?_⟩
    · rw [AddGenRsrcRequests_of_amt eps f amt hamt, if_pos hpos]
    · simp
    · simp [Function.comp_def]
    · intro r hr
      simp only [List.mem_map] at hr
      obtain ⟨c, _, rfl⟩ := hr
      rfl

/-- Witness for `AddRequests_single_portfolio`: throughput 50, max inventory
100, commodities `A, A, B` (a duplicate name), `eps = 1/1000000`: the request
amount is `50/3` and each kind gets one portfolio of three lines. -/
theorem AddRequests_single_portfolio_witness :
    (∃ p, SinkFacility.AddMatlRequests (1 / 1000000) ⟨["A", "A", "B"], 50, ⟨[], 100⟩, 0⟩
          = some [p] ∧ p.constraints = [50 / 3] ∧
        p.requests.length = 3 ∧
        p.requests.map (fun r => r.commodity) = ["A", "A", "B"] ∧
        ∀ r ∈ p.requests, r.target.quantity = 50 / 3) ∧
    (∃ p, SinkFacility.AddGenRsrcRequests (1 / 1000000) ⟨["A", "A", "B"], 50, ⟨[], 100⟩, 0⟩
          = some [p] ∧ p.constraints = [50 / 3] ∧
        p.requests.length = 3 ∧
        p.requests.map (fun r => r.commodity) = ["A", "A", "B"] ∧
        ∀ r ∈ p.requests, r.target.quantity = 50 / 3) :=
  AddRequests_single_portfolio (1 / 1000000) ⟨["A", "A", "B"], 50, ⟨[], 100⟩, 0⟩ (50 / 3)
    (by
      simp [SinkFacility.RequestAmt_, ResourceBuff.space, ResourceBuff.capacity,
        ResourceBuff.quantity]
      norm_num)
    (by norm_num)

/-- C4: when `RequestAmt_` returns a value `≤ eps`, both `AddMatlRequests` and
`AddGenRsrcRequests` return the empty set of portfolios; in particular (for
`eps ≥ 0`) when the inventory is full, `space ≤ 0`. -/
theorem AddRequests_empty (eps : ℚ) (f : SinkFacility) :
    (∀ amt, f.RequestAmt_ = some amt → amt ≤ eps →
      f.AddMatlRequests eps = some [] ∧ f.AddGenRsrcRequests eps = some []) ∧
    (0 ≤ eps → f.inventory_.space ≤ 0 →
      f.AddMatlRequests eps = some [] ∧ f.AddGenRsrcRequests eps = some []) := by
  have key : ∀ amt, f.RequestAmt_ = some amt → amt ≤ eps →
      f.AddMatlRequests eps = some [] ∧ f.AddGenRsrcRequests eps = some [] := by
    intro amt hamt hle
    rw [AddMatlRequests_of_amt eps f amt hamt, AddGenRsrcRequests_of_amt eps f amt hamt,
      if_neg (not_lt.mpr hle), if_neg (not_lt.mpr hle)]
    exact ⟨rfl, rfl⟩
  refine ⟨key, fun heps hfull => key 0 ?_ heps⟩
  simp [SinkFacility.RequestAmt_, hfull]

/-- Witness for `AddRequests_empty`: scenario 4 of the spec, the inventory
holds 100 of at most 100, so the space is 0, the request amount is 0 and no
portfolio is emitted. -/
theorem AddRequests_empty_witness :
    SinkFacility.AddMatlRequests (1 / 1000000) ⟨["A"], 100, ⟨[100], 100⟩, 0⟩ = some [] ∧
    SinkFacility.AddGenRsrcRequests (1 / 1000000) ⟨["A"], 100, ⟨[100], 100⟩, 0⟩ = some [] :=
  (AddRequests_empty (1 / 1000000) ⟨["A"], 100, ⟨[100], 100⟩, 0⟩).2 (by norm_num)
    (by simp [ResourceBuff.space, ResourceBuff.capacity, ResourceBuff.quantity])

/-! ### Trade acceptance -/

/-- `AcceptMatlTrades` is the push loop over the resources of the responses. -/
theorem AcceptMatlTrades_eq_pushAll (f : SinkFacility)
    (rs : List (Trade Material × Material)) :
    f.AcceptMatlTrades rs = pushAll f (rs.map fun it => it.2.quantity) := by
  induction rs generalizing f with
  | nil => rfl
  | cons r rs ih =>
    simp only [SinkFacility.AcceptMatlTrades, List.map_cons, pushAll]
    cases f.inventory_.Push r.2.quantity with
    | none => rfl
    | some inv => exact ih _

/-- `AcceptGenRsrcTrades` is the push loop over the resources of the responses. -/
theorem AcceptGenRsrcTrades_eq_pushAll (f : SinkFacility)
    (rs : List (Trade GenericResource × GenericResource)) :
    f.AcceptGenRsrcTrades rs = pushAll f (rs.map fun it => it.2.quantity) := by
  induction rs generalizing f with
  | nil => rfl
  | cons r rs ih =>
    simp only [SinkFacility.AcceptGenRsrcTrades, List.map_cons, pushAll]
    cases f.inventory_.Push r.2.quantity with
    | none => rfl
    | some inv => exact ih _

/-- A successful push appends the unit and keeps the capacity. -/
theorem Push_eq_some (b b1 : ResourceBuff) (q : ℚ) (h : b.Push q = some b1) :
    b.quantity + q ≤ b.capacity ∧ b1 = ⟨b.mats_ ++ [q], b.capacity_⟩ := by
  unfold ResourceBuff.Push at h
  by_cases hq : b.quantity + q > b.capacity
  · simp [hq] at h
  · simp only [hq, if_false, Option.some.injEq] at h
    exact ⟨not_lt.mp hq, h.symm⟩

/-- A push that fits succeeds. -/
theorem Push_of_fits (b : ResourceBuff) (q : ℚ) (h : b.quantity + q ≤ b.capacity) :
    b.Push q = some ⟨b.mats_ ++ [q], b.capacity_⟩ := by
  unfold ResourceBuff.Push
  simp [not_lt.mpr h]

/-- When no push fails, the loop appends every quantity, in order, and changes
nothing else. -/
theorem pushAll_not_thrown (f : SinkFacility) (qs : List ℚ)
    (h : (pushAll f qs).thrown = false) :
    (pushAll f qs).state =
      { f with inventory_ := ⟨f.inventory_.mats_ ++ qs, f.inventory_.capacity_⟩ } := by
  induction qs generalizing f with
  | nil => simp [pushAll]
  | cons q qs ih =>
    unfold pushAll at h ⊢
    cases hp : f.inventory_.Push q with
    | none => simp [hp] at h
    | some inv =>
      simp only [hp] at h ⊢
      obtain ⟨_, rfl⟩ := Push_eq_some _ _ _ hp
      rw [ih _ h]
      simp

/-- Whether or not a push fails, the loop keeps the configuration and the
inventory capacity, and only appends to the inventory. -/
theorem pushAll_frame (f : SinkFacility) (qs : List ℚ) :
    (pushAll f qs).state.in_commods_ = f.in_commods_ ∧
    (pushAll f qs).state.capacity_ = f.capacity_ ∧
    (pushAll f qs).state.commod_price_ = f.commod_price_ ∧
    (pushAll f qs).state.inventory_.capacity_ = f.inventory_.capacity_ := by
  induction qs generalizing f with
  | nil => simp [pushAll]
  | cons q qs ih =>
    unfold pushAll
    cases hp : f.inventory_.Push q with
    | none => simp
    | some inv =>
      simp only
      obtain ⟨_, rfl⟩ := Push_eq_some _ _ _ hp
      exact ih _

/-- With non-negative quantities and `held_quantity ≤ capacity` at the start,
the held quantity never decreases and never exceeds the capacity. -/
theorem pushAll_bounds (f : SinkFacility) (qs : List ℚ)
    (hheld : f.inventory_.quantity ≤ f.inventory_.capacity)
    (hq : ∀ q ∈ qs, 0 ≤ q) :
    f.inventory_.quantity ≤ (pushAll f qs).state.inventory_.quantity ∧
    (pushAll f qs).state.inventory_.quantity ≤ (pushAll f qs).state.inventory_.capacity := by
  induction qs generalizing f with
  | nil => simpa [pushAll] using hheld
  | cons q qs ih =>
    unfold pushAll
    cases hp : f.inventory_.Push q with
    | none => simpa using hheld
    | some inv =>
      simp only
      obtain ⟨hfit, rfl⟩ := Push_eq_some _ _ _ hp
      have hq0 : 0 ≤ q := hq q (List.mem_cons_self _ _)
      have hstep : f.inventory_.quantity + q =
          ResourceBuff.quantity ⟨f.inventory_.mats_ ++ [q], f.inventory_.capacity_⟩ := by
        simp [ResourceBuff.quantity]
      have h := ih { f with inventory_ := ⟨f.inventory_.mats_ ++ [q], f.inventory_.capacity_⟩ }
        (by rw [← hstep]; exact hfit) (fun x hx => hq x (List.mem_cons_of_mem _ hx))
      refine ⟨?_, h.2⟩
      have h1 := h.1
      simp only at h1
      rw [← hstep] at h1
      linarith

/-- When the quantities are non-negative and their total fits in the remaining
space, no push fails. -/
theorem pushAll_of_fits (f : SinkFacility) (qs : List ℚ) (hq : ∀ q ∈ qs, 0 ≤ q)
    (hfit : f.inventory_.quantity + qs.sum ≤ f.inventory_.capacity) :
    (pushAll f qs).thrown = false := by
  induction qs generalizing f with
  | nil => rfl
  | cons q qs ih =>
    have hq0 : 0 ≤ q := hq q (List.mem_cons_self _ _)
    have hrest : 0 ≤ qs.sum :=
      List.sum_nonneg (fun x hx => hq x (List.mem_cons_of_mem _ hx))
    rw [List.sum_cons] at hfit
    unfold pushAll
    rw [Push_of_fits _ _ (by linarith)]
    simp only
    apply ih _ (fun x hx => hq x (List.mem_cons_of_mem _ hx))
    simp only [ResourceBuff.quantity, ResourceBuff.capacity, List.sum_append,
      List.sum_cons, List.sum_nil, add_zero] at hfit ⊢
    linarith

/-- C5: for every state and every sequence of responses whose pushes all
succeed, `AcceptMatlTrades` and `AcceptGenRsrcTrades` push every response's
resource into the inventory, in order, none skipped: the held quantity
afterwards is the held quantity before plus the total of the sequence, and an
empty sequence changes nothing. -/
theorem Accept_pushes_every_response (f : SinkFacility) :
    (∀ rs : List (Trade Material × Material), (f.AcceptMatlTrades rs).thrown = false →
      (f.AcceptMatlTrades rs).state.inventory_.mats_ =
        f.inventory_.mats_ ++ rs.map (fun it => it.2.quantity) ∧
      (f.AcceptMatlTrades rs).state.InventorySize = f.InventorySize + matlTotal rs) ∧
    (∀ rs : List (Trade GenericResource × GenericResource),
      (f.AcceptGenRsrcTrades rs).thrown = false →
      (f.AcceptGenRsrcTrades rs).state.inventory_.mats_ =
        f.inventory_.mats_ ++ rs.map (fun it => it.2.quantity) ∧
      (f.AcceptGenRsrcTrades rs).state.InventorySize = f.InventorySize + genRsrcTotal rs) ∧
    f.AcceptMatlTrades [] = ⟨f, false⟩ ∧ f.AcceptGenRsrcTrades [] = ⟨f, false⟩ := by
  refine ⟨?_, ?_, rfl, rfl⟩
  · intro rs h
    rw [AcceptMatlTrades_eq_pushAll] at h ⊢
    rw [pushAll_not_thrown f _ h]
    simp [SinkFacility.InventorySize, ResourceBuff.quantity, matlTotal]
  · intro rs h
    rw [AcceptGenRsrcTrades_eq_pushAll] at h ⊢
    rw [pushAll_not_thrown f _ h]
    simp [SinkFacility.InventorySize, ResourceBuff.quantity, genRsrcTotal]

/-- Witness for `Accept_pushes_every_response`: scenario 2 of the spec, one
material trade of quantity 40 accepted into an empty inventory of capacity 100
gives `held_quantity = 40`. -/
theorem Accept_pushes_every_response_witness :
    (SinkFacility.AcceptMatlTrades ⟨["A"], 100, ⟨[], 100⟩, 0⟩
        [(⟨⟨⟨100⟩, "A"⟩, 40⟩, ⟨40⟩)]).state.inventory_.mats_ = [] ++ [40] ∧
    (SinkFacility.AcceptMatlTrades ⟨["A"], 100, ⟨[], 100⟩, 0⟩
        [(⟨⟨⟨100⟩, "A"⟩, 40⟩, ⟨40⟩)]).state.InventorySize =
      SinkFacility.InventorySize ⟨["A"], 100, ⟨[], 100⟩, 0⟩ +
        matlTotal [(⟨⟨⟨100⟩, "A"⟩, 40⟩, ⟨40⟩)] :=
  (Accept_pushes_every_response ⟨["A"], 100, ⟨[], 100⟩, 0⟩).1
    [(⟨⟨⟨100⟩, "A"⟩, 40⟩, ⟨40⟩)]
    (by
      simp [SinkFacility.AcceptMatlTrades, ResourceBuff.Push, ResourceBuff.quantity,
        ResourceBuff.capacity]
      norm_num)

/-- C6: from a state with `held_quantity ≤ capacity`, accepting any sequence of
trades whose resources have non-negative quantity, with `AcceptMatlTrades` or
`AcceptGenRsrcTrades`, leaves a held quantity that is at least the one before
and at most the capacity (which is unchanged), whether or not a push failed. -/
theorem Accept_held_monotone_bounded (f : SinkFacility)
    (hheld : f.inventory_.quantity ≤ f.inventory_.capacity) :
    (∀ rs : List (Trade Material × Material), (∀ it ∈ rs, 0 ≤ it.2.quantity) →
      f.InventorySize ≤ (f.AcceptMatlTrades rs).state.InventorySize ∧
      (f.AcceptMatlTrades rs).state.InventorySize ≤
        (f.AcceptMatlTrades rs).state.MaxInventorySize ∧
      (f.AcceptMatlTrades rs).state.MaxInventorySize = f.MaxInventorySize) ∧
    (∀ rs : List (Trade GenericResource × GenericResource),
      (∀ it ∈ rs, 0 ≤ it.2.quantity) →
      f.InventorySize ≤ (f.AcceptGenRsrcTrades rs).state.InventorySize ∧
      (f.AcceptGenRsrcTrades rs).state.InventorySize ≤
        (f.AcceptGenRsrcTrades rs).state.MaxInventorySize ∧
      (f.AcceptGenRsrcTrades rs).state.MaxInventorySize = f.MaxInventorySize) := by
  constructor
  · intro rs hq
    rw [AcceptMatlTrades_eq_pushAll]
    have hb := pushAll_bounds f (rs.map fun it => it.2.quantity) hheld
      (by
        intro q hmem
        obtain ⟨it, hit, rfl⟩ := List.mem_map.mp hmem
        exact hq it hit)
    exact ⟨hb.1, hb.2, (pushAll_frame f _).2.2.2⟩
  · intro rs hq
    rw [AcceptGenRsrcTrades_eq_pushAll]
    have hb := pushAll_bounds f (rs.map fun it => it.2.quantity) hheld
      (by
        intro q hmem
        obtain ⟨it, hit, rfl⟩ := List.mem_map.mp hmem
        exact hq it hit)
    exact ⟨hb.1, hb.2, (pushAll_frame f _).2.2.2⟩

/-- Witness for `Accept_held_monotone_bounded`: capacity 100, 40 held, material
fills 30 and 50: the first is pushed, the second would overflow and fails; the
held quantity ends at 70, between 40 and 100. -/
theorem Accept_held_monotone_bounded_witness :
    SinkFacility.InventorySize ⟨["A"], 100, ⟨[40], 100⟩, 0⟩ ≤
      (SinkFacility.AcceptMatlTrades ⟨["A"], 100, ⟨[40], 100⟩, 0⟩
        [(⟨⟨⟨60⟩, "A"⟩, 30⟩, ⟨30⟩), (⟨⟨⟨60⟩, "A"⟩, 50⟩, ⟨50⟩)]).state.InventorySize ∧
    (SinkFacility.AcceptMatlTrades ⟨["A"], 100, ⟨[40], 100⟩, 0⟩
        [(⟨⟨⟨60⟩, "A"⟩, 30⟩, ⟨30⟩), (⟨⟨⟨60⟩, "A"⟩, 50⟩, ⟨50⟩)]).state.InventorySize ≤
      (SinkFacility.AcceptMatlTrades ⟨["A"], 100, ⟨[40], 100⟩, 0⟩
        [(⟨⟨⟨60⟩, "A"⟩, 30⟩, ⟨30⟩), (⟨⟨⟨60⟩, "A"⟩, 50⟩, ⟨50⟩)]).state.MaxInventorySize ∧
    (SinkFacility.AcceptMatlTrades ⟨["A"], 100, ⟨[40], 100⟩, 0⟩
        [(⟨⟨⟨60⟩, "A"⟩, 30⟩, ⟨30⟩), (⟨⟨⟨60⟩, "A"⟩, 50⟩, ⟨50⟩)]).state.MaxInventorySize =
      SinkFacility.MaxInventorySize ⟨["A"], 100, ⟨[40], 100⟩, 0⟩ :=
  (Accept_held_monotone_bounded ⟨["A"], 100, ⟨[40], 100⟩, 0⟩
    (by simp [ResourceBuff.quantity, ResourceBuff.capacity]; norm_num)).1
    [(⟨⟨⟨60⟩, "A"⟩, 30⟩, ⟨30⟩), (⟨⟨⟨60⟩, "A"⟩, 50⟩, ⟨50⟩)]
    (by
      intro it hit
      simp only [List.mem_cons, List.mem_singleton, List.not_mem_nil, or_false] at hit
      rcases hit with rfl | rfl <;> norm_num)

/-! ### Requests against the two bounds -/

/-- With a positive throughput capacity and at least one commodity,
`RequestAmt_` returns a non-negative amount whose `n`-fold is within the
throughput capacity and, when the inventory is not over-full, within the
remaining space. -/
theorem RequestAmt_bounds (f : SinkFacility) (hcap : 0 < f.capacity_)
    (hn : 1 ≤ f.in_commods_.length) :
    ∃ amt, f.RequestAmt_ = some amt ∧ 0 ≤ amt ∧
      (f.in_commods_.length : ℚ) * amt ≤ f.capacity_ ∧
      (0 ≤ f.inventory_.space → (f.in_commods_.length : ℚ) * amt ≤ f.inventory_.space) := by
  have hn0 : (0 : ℚ) < (f.in_commods_.length : ℚ) := by exact_mod_cast hn
  have hne : (f.in_commods_.length : ℚ) ≠ 0 := ne_of_gt hn0
  unfold SinkFacility.RequestAmt_
  by_cases h0 : f.inventory_.space ≤ 0
  · refine ⟨0, by simp [h0], le_refl _, by simpa using hcap.le, fun hs => by simpa using hs⟩
  · have hs : 0 < f.inventory_.space := not_le.mp h0
    by_cases h1 : f.inventory_.space < f.capacity_
    · refine ⟨f.inventory_.space / (f.in_commods_.length : ℚ), by simp [h0, h1],
        div_nonneg hs.le hn0.le, ?_, fun _ => ?_⟩
      · rw [mul_div_cancel₀ _ hne]; exact h1.le
      · rw [mul_div_cancel₀ _ hne]
    · refine ⟨f.capacity_ / (f.in_commods_.length : ℚ),
        by simp [h0, h1, not_lt.mp h1], div_nonneg hcap.le hn0.le, ?_, fun _ => ?_⟩
      · rw [mul_div_cancel₀ _ hne]
      · rw [mul_div_cancel₀ _ hne]; exact not_lt.mp h1

/-- Total requested by a material portfolio of `n` lines of quantity `amt`. -/
theorem requestedMatl_lines (amt : ℚ) (commods : List String) :
    requestedMatl ⟨[amt], commods.map fun c => ⟨Material.CreateBlank amt, c⟩⟩ =
      (commods.length : ℚ) * amt := by
  induction commods with
  | nil => simp [requestedMatl]
  | cons c cs ih =>
    simp only [requestedMatl, List.map_cons, List.sum_cons, List.length_cons,
      Nat.cast_add, Nat.cast_one] at ih ⊢
    rw [ih]
    simp only [Material.CreateBlank]
    ring

/-- Total requested by a generic-resource portfolio of `n` lines of quantity `amt`. -/
theorem requestedGenRsrc_lines (amt : ℚ) (commods : List String) :
    requestedGenRsrc
        ⟨[amt], commods.map fun c => ⟨GenericResource.CreateUntracked amt "" "", c⟩⟩ =
      (commods.length : ℚ) * amt := by
  induction commods with
  | nil => simp [requestedGenRsrc]
  | cons c cs ih =>
    simp only [requestedGenRsrc, List.map_cons, List.sum_cons, List.length_cons,
      Nat.cast_add, Nat.cast_one] at ih ⊢
    rw [ih]
    simp only [GenericResource.CreateUntracked]
    ring

/-- C8 (as stated, refuted): throughput 50, max inventory 100, commodities
`A, B`, empty inventory.  Each emitter returns one portfolio of two lines of
25; summed over every line of both portfolios the facility requests 100 in
the period, twice its throughput capacity of 50. -/
theorem requests_of_both_kinds_exceed_throughput :
    ∃ pm pg,
      SinkFacility.AddMatlRequests (1 / 1000000) ⟨["A", "B"], 50, ⟨[], 100⟩, 0⟩ = some [pm] ∧
      SinkFacility.AddGenRsrcRequests (1 / 1000000) ⟨["A", "B"], 50, ⟨[], 100⟩, 0⟩
        = some [pg] ∧
      requestedMatl pm = 50 ∧ requestedGenRsrc pg = 50 ∧
      ¬ (requestedMatl pm + requestedGenRsrc pg ≤
          SinkFacility.capacity ⟨["A", "B"], 50, ⟨[], 100⟩, 0⟩) := by
  have hamt : SinkFacility.RequestAmt_ ⟨["A", "B"], 50, ⟨[], 100⟩, 0⟩ = some 25 := by
    simp [SinkFacility.RequestAmt_, ResourceBuff.space, ResourceBuff.capacity,
      ResourceBuff.quantity]
    norm_num
  refine ⟨⟨[25], [⟨Material.CreateBlank 25, "A"⟩, ⟨Material.CreateBlank 25, "B"⟩]⟩,
    ⟨[25], [⟨GenericResource.CreateUntracked 25 "" "", "A"⟩,
      ⟨GenericResource.CreateUntracked 25 "" "", "B"⟩]⟩, ?_, ?_, ?_, ?_, ?_⟩
  · rw [AddMatlRequests_of_amt _ _ 25 hamt, if_pos (by norm_num)]
    rfl
  · rw [AddGenRsrcRequests_of_amt _ _ 25 hamt, if_pos (by norm_num)]
    rfl
  · simp [requestedMatl, Material.CreateBlank]; norm_num
  · simp [requestedGenRsrc, GenericResource.CreateUntracked]; norm_num
  · simp [requestedMatl, requestedGenRsrc, Material.CreateBlank,
      GenericResource.CreateUntracked, SinkFacility.capacity]
    norm_num

/-- C8 (amended): with `throughput_capacity > 0` and `n ≥ 1` commodities, both
emitters return, and for each resource kind taken separately the quantity
requested, summed over every request line of every portfolio that kind's
emitter returns, does not exceed `throughput_capacity`. -/
theorem requests_per_kind_within_throughput (eps : ℚ) (f : SinkFacility)
    (hcap : 0 < f.capacity_) (hn : 1 ≤ f.in_commods_.length) :
    ∃ pm pg, f.AddMatlRequests eps = some pm ∧ f.AddGenRsrcRequests eps = some pg ∧
      (pm.map requestedMatl).sum ≤ f.capacity_ ∧
      (pg.map requestedGenRsrc).sum ≤ f.capacity_ := by
  obtain ⟨amt, hamt, _, hle, _⟩ := RequestAmt_bounds f hcap hn
  refine ⟨_, _, AddMatlRequests_of_amt eps f amt hamt,
    AddGenRsrcRequests_of_amt eps f amt hamt, ?_, ?_⟩
  · by_cases ha : amt > eps
    · rw [if_pos ha]
      simpa [requestedMatl_lines] using hle
    · rw [if_neg ha]
      simpa using hcap.le
  · by_cases ha : amt > eps
    · rw [if_pos ha]
      simpa [requestedGenRsrc_lines] using hle
    · rw [if_neg ha]
      simpa using hcap.le

/-- Witness for `requests_per_kind_within_throughput`: throughput 50, max
inventory 100, commodities `A, B`. -/
theorem requests_per_kind_within_throughput_witness :
    ∃ pm pg,
      SinkFacility.AddMatlRequests (1 / 1000000) ⟨["A", "B"], 50, ⟨[], 100⟩, 0⟩ = some pm ∧
      SinkFacility.AddGenRsrcRequests (1 / 1000000) ⟨["A", "B"], 50, ⟨[], 100⟩, 0⟩
        = some pg ∧
      (pm.map requestedMatl).sum ≤ 50 ∧ (pg.map requestedGenRsrc).sum ≤ 50 :=
  requests_per_kind_within_throughput (1 / 1000000) ⟨["A", "B"], 50, ⟨[], 100⟩, 0⟩
    (by norm_num) (by decide)

/-- C7 (as stated, refuted): throughput 100, max inventory 100, one commodity,
empty inventory.  Both emitters return a portfolio with capacity constraint
100.  A material fill of 100 respects the first constraint and a generic fill
of 100 respects the second; together they are 200 against a space of 100: the
material accept fills the inventory and the generic accept fails on its
push. -/
theorem fills_within_each_constraint_overflow :
    ResourceBuff.quantity ⟨[], 100⟩ ≤ ResourceBuff.capacity ⟨[], 100⟩ ∧
    SinkFacility.AddMatlRequests (1 / 1000000) ⟨["A"], 100, ⟨[], 100⟩, 0⟩
      = some [⟨[100], [⟨⟨100⟩, "A"⟩]⟩] ∧
    SinkFacility.AddGenRsrcRequests (1 / 1000000) ⟨["A"], 100, ⟨[], 100⟩, 0⟩
      = some [⟨[100], [⟨⟨100, "", ""⟩, "A"⟩]⟩] ∧
    RespectsConstraints [(⟨[100], [⟨⟨100⟩, "A"⟩]⟩ : RequestPortfolio Material)]
      [((⟨⟨⟨100⟩, "A"⟩, 100⟩ : Trade Material), (⟨100⟩ : Material))].length
      (matlTotal [(⟨⟨⟨100⟩, "A"⟩, 100⟩, ⟨100⟩)]) ∧
    RespectsConstraints
      [(⟨[100], [⟨⟨100, "", ""⟩, "A"⟩]⟩ : RequestPortfolio GenericResource)]
      [((⟨⟨⟨100, "", ""⟩, "A"⟩, 100⟩ : Trade GenericResource),
        (⟨100, "", ""⟩ : GenericResource))].length
      (genRsrcTotal [(⟨⟨⟨100, "", ""⟩, "A"⟩, 100⟩, ⟨100, "", ""⟩)]) ∧
    SinkFacility.AcceptMatlTrades ⟨["A"], 100, ⟨[], 100⟩, 0⟩
        [(⟨⟨⟨100⟩, "A"⟩, 100⟩, ⟨100⟩)]
      = ⟨⟨["A"], 100, ⟨[100], 100⟩, 0⟩, false⟩ ∧
    SinkFacility.AcceptGenRsrcTrades ⟨["A"], 100, ⟨[100], 100⟩, 0⟩
        [(⟨⟨⟨100, "", ""⟩, "A"⟩, 100⟩, ⟨100, "", ""⟩)]
      = ⟨⟨["A"], 100, ⟨[100], 100⟩, 0⟩, true⟩ := by
  have hamt : SinkFacility.RequestAmt_ ⟨["A"], 100, ⟨[], 100⟩, 0⟩ = some 100 := by
    simp [SinkFacility.RequestAmt_, ResourceBuff.space, ResourceBuff.capacity,
      ResourceBuff.quantity]
  refine ⟨?_, ?_, ?_, ?_, ?_, ?_, ?_⟩
  · simp [ResourceBuff.quantity, ResourceBuff.capacity]
  · rw [AddMatlRequests_of_amt _ _ 100 hamt, if_pos (by norm_num)]
    rfl
  · rw [AddGenRsrcRequests_of_amt _ _ 100 hamt, if_pos (by norm_num)]
    rfl
  · simp [RespectsConstraints, matlTotal]
  · simp [RespectsConstraints, genRsrcTotal]
  · simp [SinkFacility.AcceptMatlTrades, ResourceBuff.Push, ResourceBuff.quantity,
      ResourceBuff.capacity]
  · simp [SinkFacility.AcceptGenRsrcTrades, ResourceBuff.Push, ResourceBuff.quantity,
      ResourceBuff.capacity]

/-- C7 (amended): from a state with `held_quantity ≤ capacity`,
`throughput_capacity > 0` and `n ≥ 1` commodities, let the material fills
respect the portfolio `AddMatlRequests` emitted in that state and the generic
fills the portfolio `AddGenRsrcRequests` emitted in that state (no fills for a
kind whose set was empty), all of non-negative quantity.  If there are at least
two commodities, or the fills of both kinds together stay within the
constraint, then no push fails in `AcceptMatlTrades` followed by
`AcceptGenRsrcTrades`, every fill is held afterwards and
`held_quantity ≤ capacity`. -/
theorem fills_within_constraints_accepted (eps : ℚ) (f : SinkFacility)
    (pm : List (RequestPortfolio Material)) (pg : List (RequestPortfolio GenericResource))
    (ms : List (Trade Material × Material))
    (gs : List (Trade GenericResource × GenericResource))
    (hheld : f.inventory_.quantity ≤ f.inventory_.capacity)
    (hcap : 0 < f.capacity_) (hn : 1 ≤ f.in_commods_.length)
    (hpm : f.AddMatlRequests eps = some pm) (hpg : f.AddGenRsrcRequests eps = some pg)
    (hm : RespectsConstraints pm ms.length (matlTotal ms))
    (hg : RespectsConstraints pg gs.length (genRsrcTotal gs))
    (hmq : ∀ it ∈ ms, 0 ≤ it.2.quantity) (hgq : ∀ it ∈ gs, 0 ≤ it.2.quantity)
    (hboth : 2 ≤ f.in_commods_.length ∨
      RespectsConstraints pm (ms.length + gs.length) (matlTotal ms + genRsrcTotal gs)) :
    (f.AcceptMatlTrades ms).thrown = false ∧
    ((f.AcceptMatlTrades ms).state.AcceptGenRsrcTrades gs).thrown = false ∧
    ((f.AcceptMatlTrades ms).state.AcceptGenRsrcTrades gs).state.InventorySize =
      f.InventorySize + matlTotal ms + genRsrcTotal gs ∧
    ((f.AcceptMatlTrades ms).state.AcceptGenRsrcTrades gs).state.InventorySize ≤
      ((f.AcceptMatlTrades ms).state.AcceptGenRsrcTrades gs).state.MaxInventorySize := by
  obtain ⟨amt, hamt, hamt0, _, hspace⟩ := RequestAmt_bounds f hcap hn
  have hsp : 0 ≤ f.inventory_.space := by unfold ResourceBuff.space; linarith
  have hnamt := hspace hsp
  rw [AddMatlRequests_of_amt eps f amt hamt, Option.some.injEq] at hpm
  rw [AddGenRsrcRequests_of_amt eps f amt hamt, Option.some.injEq] at hpg
  have hm0 : 0 ≤ matlTotal ms :=
    List.sum_nonneg (fun q hq => by
      obtain ⟨it, hit, rfl⟩ := List.mem_map.mp hq
      exact hmq it hit)
  have hg0 : 0 ≤ genRsrcTotal gs :=
    List.sum_nonneg (fun q hq => by
      obtain ⟨it, hit, rfl⟩ := List.mem_map.mp hq
      exact hgq it hit)
  -- the fills of both kinds together fit in the remaining space
  have htotal : matlTotal ms + genRsrcTotal gs ≤ f.inventory_.space := by
    by_cases ha : amt > eps
    · rw [if_pos ha] at hpm hpg
      subst hpm hpg
      have h1 : matlTotal ms ≤ amt := hm.2 _ (List.mem_singleton.mpr rfl) amt
        (List.mem_singleton.mpr rfl)
      have h2 : genRsrcTotal gs ≤ amt := hg.2 _ (List.mem_singleton.mpr rfl) amt
        (List.mem_singleton.mpr rfl)
      rcases hboth with h2n | hb
      · have h2q : (2 : ℚ) ≤ (f.in_commods_.length : ℚ) := by exact_mod_cast h2n
        nlinarith
      · have h3 : matlTotal ms + genRsrcTotal gs ≤ amt :=
          hb.2 _ (List.mem_singleton.mpr rfl) amt (List.mem_singleton.mpr rfl)
        have h1q : (1 : ℚ) ≤ (f.in_commods_.length : ℚ) := by exact_mod_cast hn
        nlinarith
    · rw [if_neg ha] at hpm hpg
      subst hpm hpg
      have e1 : ms = [] := List.length_eq_zero.mp (hm.1 rfl)
      have e2 : gs = [] := List.length_eq_zero.mp (hg.1 rfl)
      subst e1 e2
      simpa [matlTotal, genRsrcTotal] using hsp
  unfold ResourceBuff.space at htotal
  have hthrow1 : (f.AcceptMatlTrades ms).thrown = false := by
    rw [AcceptMatlTrades_eq_pushAll]
    apply pushAll_of_fits
    · intro q hq
      obtain ⟨it, hit, rfl⟩ := List.mem_map.mp hq
      exact hmq it hit
    · unfold matlTotal at htotal hm0
      linarith
  have hstate1 := pushAll_not_thrown f (ms.map fun it => it.2.quantity)
    (by rw [← AcceptMatlTrades_eq_pushAll]; exact hthrow1)
  rw [← AcceptMatlTrades_eq_pushAll] at hstate1
  have hthrow2 : ((f.AcceptMatlTrades ms).state.AcceptGenRsrcTrades gs).thrown = false := by
    rw [AcceptGenRsrcTrades_eq_pushAll]
    apply pushAll_of_fits
    · intro q hq
      obtain ⟨it, hit, rfl⟩ := List.mem_map.mp hq
      exact hgq it hit
    · rw [hstate1]
      simp only [ResourceBuff.quantity, ResourceBuff.capacity, List.sum_append]
      unfold matlTotal genRsrcTotal ResourceBuff.quantity ResourceBuff.capacity at htotal
      linarith
  have hstate2 := pushAll_not_thrown (f.AcceptMatlTrades ms).state
    (gs.map fun it => it.2.quantity)
    (by rw [← AcceptGenRsrcTrades_eq_pushAll]; exact hthrow2)
  rw [← AcceptGenRsrcTrades_eq_pushAll] at hstate2
  refine ⟨hthrow1, hthrow2, ?_, ?_⟩
  · rw [hstate2, hstate1]
    simp only [SinkFacility.InventorySize, ResourceBuff.quantity, matlTotal, genRsrcTotal,
      List.sum_append]
  · rw [hstate2, hstate1]
    simp only [SinkFacility.InventorySize, SinkFacility.MaxInventorySize,
      ResourceBuff.quantity, ResourceBuff.capacity, List.sum_append]
    unfold matlTotal genRsrcTotal ResourceBuff.quantity ResourceBuff.capacity at htotal
    linarith

/-- Witness for `fills_within_constraints_accepted`: throughput 50, max
inventory 100, commodities `A, B`: both portfolios carry the constraint 25; a
material fill of 25 and a generic fill of 25 are both accepted and the
inventory holds 50 of at most 100. -/
theorem fills_within_constraints_accepted_witness :
    (SinkFacility.AcceptMatlTrades (⟨["A", "B"], 50, ⟨[], 100⟩, 0⟩ : SinkFacility)
      [((⟨⟨⟨25⟩, "A"⟩, 25⟩ : Trade Material), (⟨25⟩ : Material))]).thrown = false ∧
    (SinkFacility.AcceptGenRsrcTrades
      (SinkFacility.AcceptMatlTrades (⟨["A", "B"], 50, ⟨[], 100⟩, 0⟩ : SinkFacility)
        [((⟨⟨⟨25⟩, "A"⟩, 25⟩ : Trade Material), (⟨25⟩ : Material))]).state
      [((⟨⟨⟨25, "", ""⟩, "B"⟩, 25⟩ : Trade GenericResource), (⟨25, "", ""⟩ : GenericResource))]).thrown = false ∧
    (SinkFacility.AcceptGenRsrcTrades
      (SinkFacility.AcceptMatlTrades (⟨["A", "B"], 50, ⟨[], 100⟩, 0⟩ : SinkFacility)
        [((⟨⟨⟨25⟩, "A"⟩, 25⟩ : Trade Material), (⟨25⟩ : Material))]).state
      [((⟨⟨⟨25, "", ""⟩, "B"⟩, 25⟩ : Trade GenericResource), (⟨25, "", ""⟩ : GenericResource))]).state.InventorySize =
      SinkFacility.InventorySize (⟨["A", "B"], 50, ⟨[], 100⟩, 0⟩ : SinkFacility) +
        matlTotal [((⟨⟨⟨25⟩, "A"⟩, 25⟩ : Trade Material), (⟨25⟩ : Material))] +
        genRsrcTotal [((⟨⟨⟨25, "", ""⟩, "B"⟩, 25⟩ : Trade GenericResource), (⟨25, "", ""⟩ : GenericResource))] ∧
    (SinkFacility.AcceptGenRsrcTrades
      (SinkFacility.AcceptMatlTrades (⟨["A", "B"], 50, ⟨[], 100⟩, 0⟩ : SinkFacility)
        [((⟨⟨⟨25⟩, "A"⟩, 25⟩ : Trade Material), (⟨25⟩ : Material))]).state
      [((⟨⟨⟨25, "", ""⟩, "B"⟩, 25⟩ : Trade GenericResource), (⟨25, "", ""⟩ : GenericResource))]).state.InventorySize ≤
    (SinkFacility.AcceptGenRsrcTrades
      (SinkFacility.AcceptMatlTrades (⟨["A", "B"], 50, ⟨[], 100⟩, 0⟩ : SinkFacility)
        [((⟨⟨⟨25⟩, "A"⟩, 25⟩ : Trade Material), (⟨25⟩ : Material))]).state
      [((⟨⟨⟨25, "", ""⟩, "B"⟩, 25⟩ : Trade GenericResource), (⟨25, "", ""⟩ : GenericResource))]).state.MaxInventorySize :=
  fills_within_constraints_accepted (1 / 1000000) (⟨["A", "B"], 50, ⟨[], 100⟩, 0⟩ : SinkFacility)
    [⟨[25], [⟨⟨25⟩, "A"⟩, ⟨⟨25⟩, "B"⟩]⟩]
    [⟨[25], [⟨⟨25, "", ""⟩, "A"⟩, ⟨⟨25, "", ""⟩, "B"⟩]⟩]
    [((⟨⟨⟨25⟩, "A"⟩, 25⟩ : Trade Material), (⟨25⟩ : Material))]
    [((⟨⟨⟨25, "", ""⟩, "B"⟩, 25⟩ : Trade GenericResource), (⟨25, "", ""⟩ : GenericResource))]
    (by simp [ResourceBuff.quantity, ResourceBuff.capacity])
    (by norm_num) (by decide)
    (by
      rw [AddMatlRequests_of_amt _ _ 25
        (by
          simp [SinkFacility.RequestAmt_, ResourceBuff.space, ResourceBuff.capacity,
            ResourceBuff.quantity]
          norm_num), if_pos (by norm_num)]
      rfl)
    (by
      rw [AddGenRsrcRequests_of_amt _ _ 25
        (by
          simp [SinkFacility.RequestAmt_, ResourceBuff.space, ResourceBuff.capacity,
            ResourceBuff.quantity]
          norm_num), if_pos (by norm_num)]
      rfl)
    (by simp [RespectsConstraints, matlTotal])
    (by simp [RespectsConstraints, genRsrcTotal])
    (by
      intro it hit
      rw [List.mem_singleton.mp hit]
      norm_num)
    (by
      intro it hit
      rw [List.mem_singleton.mp hit]
      norm_num)
    (Or.inl (by decide))

/-! ### Configuration and cloning -/

/-- The commodity loop of `InitModuleMembers` appends every entry, in order. -/
theorem foldl_AddCommodity (names : List String) (f : SinkFacility) :
    names.foldl (fun g name => g.AddCommodity name) f =
      { f with in_commods_ := f.in_commods_ ++ names } := by
  induction names generalizing f with
  | nil => simp
  | cons c cs ih =>
    rw [List.foldl_cons, ih]
    simp [SinkFacility.AddCommodity]

/-- C9 (as stated, refuted): a descriptor with zero `incommodity` entries is
configured without any error: `InitModuleMembers` on a freshly constructed
facility yields an entity with commodity count 0 and a positive inventory
space, so that `RequestAmt_` goes past its first branch and divides by
`in_commods_.size() = 0`. -/
theorem InitModuleMembers_accepts_empty_commodities :
    SinkFacility.InitModuleMembers ConstructSinkFacility ⟨[], none, none⟩ =
      ⟨[], numeric_limits_double_max, ⟨[], numeric_limits_double_max⟩, 0⟩ ∧
    (SinkFacility.InitModuleMembers ConstructSinkFacility ⟨[], none, none⟩).in_commods_.length
      = 0 ∧
    ¬ (SinkFacility.InitModuleMembers ConstructSinkFacility
        ⟨[], none, none⟩).inventory_.space ≤ 0 := by
  refine ⟨rfl, rfl, ?_⟩
  simp [SinkFacility.InitModuleMembers, SinkFacility.SetMaxInventorySize,
    SinkFacility.set_capacity, ResourceBuff.set_capacity, ResourceBuff.space,
    ResourceBuff.capacity, ResourceBuff.quantity, GetOptionalQuery, ConstructSinkFacility,
    numeric_limits_double_max]
  norm_num

/-- C9 (amended): `InitModuleMembers` makes no check of its own on the number of
`incommodity` entries: it appends them, in order, to the commodity list, so a
freshly constructed facility ends with exactly the descriptor's entries, and
its commodity count is at least 1 exactly when the descriptor has at least one
entry. -/
theorem InitModuleMembers_commodities (f : SinkFacility) (qe : QueryEngine) :
    (f.InitModuleMembers qe).in_commods_ = f.in_commods_ ++ qe.incommodity ∧
    (ConstructSinkFacility.InitModuleMembers qe).in_commods_ = qe.incommodity ∧
    (1 ≤ (ConstructSinkFacility.InitModuleMembers qe).in_commods_.length ↔
      1 ≤ qe.incommodity.length) := by
  have h : ∀ g : SinkFacility,
      (g.InitModuleMembers qe).in_commods_ = g.in_commods_ ++ qe.incommodity := by
    intro g
    simp [SinkFacility.InitModuleMembers, foldl_AddCommodity,
      SinkFacility.SetMaxInventorySize, SinkFacility.set_capacity]
  have h0 : (ConstructSinkFacility.InitModuleMembers qe).in_commods_ = qe.incommodity := by
    rw [h]; simp [ConstructSinkFacility]
  exact ⟨h f, h0, by rw [h0]⟩

/-- C10 (as stated, refuted): a facility with throughput 100 and max inventory
100 that holds 40.  Its clone has the same configuration, and its inventory
holds 40 as well: it is not empty. -/
theorem Clone_of_holding_facility_not_empty :
    SinkFacility.Clone ⟨["A"], 100, ⟨[40], 100⟩, 0⟩ = ⟨["A"], 100, ⟨[40], 100⟩, 0⟩ ∧
    (SinkFacility.Clone ⟨["A"], 100, ⟨[40], 100⟩, 0⟩).InventorySize = 40 ∧
    ¬ (SinkFacility.Clone ⟨["A"], 100, ⟨[40], 100⟩, 0⟩).InventorySize = 0 := by
  refine ⟨rfl, ?_, ?_⟩
  · simp [SinkFacility.Clone, SinkFacility.InventorySize, SinkFacility.SetMaxInventorySize,
      SinkFacility.set_capacity, ResourceBuff.set_capacity, ResourceBuff.quantity]
  · simp [SinkFacility.Clone, SinkFacility.InventorySize, SinkFacility.SetMaxInventorySize,
      SinkFacility.set_capacity, ResourceBuff.set_capacity, ResourceBuff.quantity]

/-- C10 (amended): for every entity state whose inventory is empty, `Clone`
returns an entity whose commodity list, throughput capacity and max inventory
size equal the original's by value and whose inventory is empty
(`held_quantity = 0`). -/
theorem Clone_of_empty_facility (f : SinkFacility) (hempty : f.inventory_.mats_ = []) :
    f.Clone.in_commods_ = f.in_commods_ ∧
    f.Clone.capacity = f.capacity ∧
    f.Clone.MaxInventorySize = f.MaxInventorySize ∧
    f.Clone.inventory_.mats_ = [] ∧
    f.Clone.InventorySize = 0 := by
  refine ⟨rfl, rfl, rfl, hempty, ?_⟩
  simp [SinkFacility.Clone, SinkFacility.InventorySize, SinkFacility.SetMaxInventorySize,
    SinkFacility.set_capacity, ResourceBuff.set_capacity, ResourceBuff.quantity, hempty]

/-- Witness for `Clone_of_empty_facility`: the prototype of scenario 3,
throughput 50, max inventory 100, commodities `A, B`, nothing held. -/
theorem Clone_of_empty_facility_witness :
    (SinkFacility.Clone ⟨["A", "B"], 50, ⟨[], 100⟩, 0⟩).in_commods_ = ["A", "B"] ∧
    (SinkFacility.Clone ⟨["A", "B"], 50, ⟨[], 100⟩, 0⟩).capacity =
      SinkFacility.capacity ⟨["A", "B"], 50, ⟨[], 100⟩, 0⟩ ∧
    (SinkFacility.Clone ⟨["A", "B"], 50, ⟨[], 100⟩, 0⟩).MaxInventorySize =
      SinkFacility.MaxInventorySize ⟨["A", "B"], 50, ⟨[], 100⟩, 0⟩ ∧
    (SinkFacility.Clone ⟨["A", "B"], 50, ⟨[], 100⟩, 0⟩).inventory_.mats_ = [] ∧
    (SinkFacility.Clone ⟨["A", "B"], 50, ⟨[], 100⟩, 0⟩).InventorySize = 0 :=
  Clone_of_empty_facility ⟨["A", "B"], 50, ⟨[], 100⟩, 0⟩ rfl

/-! ### The assignment chain of `RequestAmt_` -/

/-- In an ordered field the third test of the chain holds whenever the first
two fail, so the chain always yields a value. -/
theorem requestAmtChain_eq {K : Type} [LinearOrderedField K] (space capacity_ : K)
    (size : ℕ) :
    requestAmtChain space capacity_ size =
      some (if space ≤ 0 then 0
        else if space < capacity_ then space / (size : K) else capacity_ / (size : K)) := by
  unfold requestAmtChain
  by_cases h0 : space ≤ 0
  · simp [h0]
  · by_cases h1 : space < capacity_
    · simp [h0, h1]
    · simp [h0, h1, not_lt.mp h1]

/-- `RequestAmt_` always returns an assigned value. -/
theorem RequestAmt_total (f : SinkFacility) : ∃ amt, f.RequestAmt_ = some amt := by
  have h : f.RequestAmt_ =
      requestAmtChain f.inventory_.space f.capacity_ f.in_commods_.length := rfl
  rw [h, requestAmtChain_eq]
  exact ⟨_, rfl⟩

/-- C15: for every pair of values `(space, capacity_)` of an ordered field,
exactly one of the three branch conditions of `RequestAmt_` holds
(`space ≤ 0`; else `space < capacity_`; else `space ≥ capacity_`), so the
chain without final `else` always assigns `requestAmt`: `RequestAmt_` never
returns the unassigned local. -/
theorem RequestAmt_chain_exhaustive {K : Type} [LinearOrderedField K]
    (space capacity_ : K) (size : ℕ) (f : SinkFacility) :
    ((space ≤ 0 ∧ ¬ (¬ space ≤ 0 ∧ space < capacity_) ∧
        ¬ (¬ space ≤ 0 ∧ ¬ space < capacity_ ∧ space ≥ capacity_)) ∨
      (¬ space ≤ 0 ∧ (¬ space ≤ 0 ∧ space < capacity_) ∧
        ¬ (¬ space ≤ 0 ∧ ¬ space < capacity_ ∧ space ≥ capacity_)) ∨
      (¬ space ≤ 0 ∧ ¬ (¬ space ≤ 0 ∧ space < capacity_) ∧
        (¬ space ≤ 0 ∧ ¬ space < capacity_ ∧ space ≥ capacity_))) ∧
    requestAmtChain space capacity_ size ≠ none ∧
    f.RequestAmt_ = requestAmtChain f.inventory_.space f.capacity_ f.in_commods_.length ∧
    f.RequestAmt_ ≠ none := by
  refine ⟨?_, ?_, rfl, ?_⟩
  · by_cases h0 : space ≤ 0
    · exact Or.inl ⟨h0, fun h => h.1 h0, fun h => h.1 h0⟩
    · by_cases h1 : space < capacity_
      · exact Or.inr (Or.inl ⟨h0, ⟨h0, h1⟩, fun h => h.2.1 h1⟩)
      · exact Or.inr (Or.inr ⟨h0, fun h => h1 h.2, h0, h1, not_lt.mp h1⟩)
  · rw [requestAmtChain_eq]
    exact Option.some_ne_none _
  · have h : f.RequestAmt_ =
        requestAmtChain f.inventory_.space f.capacity_ f.in_commods_.length := rfl
    rw [h, requestAmtChain_eq]
    exact Option.some_ne_none _

/-! ### Period hooks -/

/-- The log loop of `HandleTick` appends one line per commodity. -/
theorem foldl_will_request (amt : ℚ) (commods : List String) (log : List LogMsg) :
    commods.foldl (fun l commod => l ++ [LogMsg.will_request amt commod]) log =
      log ++ commods.map (LogMsg.will_request amt) := by
  induction commods generalizing log with
  | nil => simp
  | cons c cs ih =>
    rw [List.foldl_cons, ih]
    simp

/-- C12: for every entity state and every time argument, `HandleTick` and
`HandleTock` return with the entity state unchanged: the held quantity, the
inventory capacity, the throughput capacity and the accepted-commodity list
are the same after the call as before; all they produce is log lines (and
`RequestAmt_`, which `HandleTick` calls, only computes a value). -/
theorem HandleTick_HandleTock_unchanged (eps : ℚ) (f : SinkFacility) (time : Int) :
    (∃ log, f.HandleTick eps time = some (f, log)) ∧
    (f.HandleTock time).1 = f ∧
    (∀ g log, f.HandleTick eps time = some (g, log) →
      g.InventorySize = f.InventorySize ∧ g.MaxInventorySize = f.MaxInventorySize ∧
      g.capacity = f.capacity ∧ g.in_commods_ = f.in_commods_) ∧
    ((f.HandleTock time).1.InventorySize = f.InventorySize ∧
      (f.HandleTock time).1.MaxInventorySize = f.MaxInventorySize ∧
      (f.HandleTock time).1.capacity = f.capacity ∧
      (f.HandleTock time).1.in_commods_ = f.in_commods_) := by
  obtain ⟨amt, hamt⟩ := RequestAmt_total f
  have htick : ∃ log, f.HandleTick eps time = some (f, log) := by
    unfold SinkFacility.HandleTick
    rw [hamt]
    exact ⟨_, rfl⟩
  refine ⟨htick, rfl, ?_, rfl, rfl, rfl, rfl⟩
  intro g log hg
  obtain ⟨log0, h0⟩ := htick
  rw [h0] at hg
  simp only [Option.some.injEq, Prod.mk.injEq] at hg
  rw [← hg.1]
  exact ⟨rfl, rfl, rfl, rfl⟩

/-- Witness for `HandleTick_HandleTock_unchanged`: the facility of scenario 2
(40 held of at most 100, one commodity) ticks at time 3, logging a request of
60, and is unchanged. -/
theorem HandleTick_HandleTock_unchanged_witness :
    SinkFacility.HandleTick (1 / 1000000) ⟨["A"], 100, ⟨[40], 100⟩, 0⟩ 3 =
      some (⟨["A"], 100, ⟨[40], 100⟩, 0⟩,
        [LogMsg.is_ticking, LogMsg.will_request 60 "A", LogMsg.closing]) ∧
    (SinkFacility.InventorySize ⟨["A"], 100, ⟨[40], 100⟩, 0⟩ =
        SinkFacility.InventorySize ⟨["A"], 100, ⟨[40], 100⟩, 0⟩ ∧
      SinkFacility.MaxInventorySize ⟨["A"], 100, ⟨[40], 100⟩, 0⟩ =
        SinkFacility.MaxInventorySize ⟨["A"], 100, ⟨[40], 100⟩, 0⟩ ∧
      SinkFacility.capacity ⟨["A"], 100, ⟨[40], 100⟩, 0⟩ =
        SinkFacility.capacity ⟨["A"], 100, ⟨[40], 100⟩, 0⟩ ∧
      (⟨["A"], 100, ⟨[40], 100⟩, 0⟩ : SinkFacility).in_commods_ = ["A"]) := by
  have htick : SinkFacility.HandleTick (1 / 1000000) ⟨["A"], 100, ⟨[40], 100⟩, 0⟩ 3 =
      some (⟨["A"], 100, ⟨[40], 100⟩, 0⟩,
        [LogMsg.is_ticking, LogMsg.will_request 60 "A", LogMsg.closing]) := by
    have hamt : SinkFacility.RequestAmt_ ⟨["A"], 100, ⟨[40], 100⟩, 0⟩ = some 60 := by
      simp [SinkFacility.RequestAmt_, ResourceBuff.space, ResourceBuff.capacity,
        ResourceBuff.quantity]
      norm_num
    unfold SinkFacility.HandleTick
    rw [hamt]
    simp only [foldl_will_request]
    rw [if_pos (by norm_num)]
    rfl
  exact ⟨htick,
    (HandleTick_HandleTock_unchanged (1 / 1000000) ⟨["A"], 100, ⟨[40], 100⟩, 0⟩ 3).2.2.1
      _ _ htick⟩

/-! ### The two resource kinds -/

/-- C13: for every entity state, `AddMatlRequests` and `AddGenRsrcRequests`
agree up to the resource kind: both return, one returns the empty set iff the
other does, and when they are non-empty their single portfolios have the same
capacity-constraint value and the same sequence of (commodity name, requested
quantity) request lines. -/
theorem AddRequests_agree_up_to_kind (eps : ℚ) (f : SinkFacility) :
    ∃ pm pg, f.AddMatlRequests eps = some pm ∧ f.AddGenRsrcRequests eps = some pg ∧
      (pm = [] ↔ pg = []) ∧
      pm.length ≤ 1 ∧ pg.length ≤ 1 ∧
      pm.map (fun p => p.constraints) = pg.map (fun p => p.constraints) ∧
      pm.map (fun p => p.requests.map fun r => (r.commodity, r.target.quantity)) =
        pg.map (fun p => p.requests.map fun r => (r.commodity, r.target.quantity)) := by
  obtain ⟨amt, hamt⟩ := RequestAmt_total f
  refine ⟨_, _, AddMatlRequests_of_amt eps f amt hamt,
    AddGenRsrcRequests_of_amt eps f amt hamt, ?_⟩
  by_cases ha : amt > eps
  · rw [if_pos ha, if_pos ha]
    refine ⟨by simp, by simp, by simp, rfl, ?_⟩
    simp [Function.comp_def, Material.CreateBlank, GenericResource.CreateUntracked]
  · rw [if_neg ha, if_neg ha]
    simp

/-! ### The request after an accept -/

/-- With non-negative quantities the push loop never lowers the held quantity,
whatever the state it starts from. -/
theorem pushAll_held_mono (f : SinkFacility) (qs : List ℚ) (hq : ∀ q ∈ qs, 0 ≤ q) :
    f.inventory_.quantity ≤ (pushAll f qs).state.inventory_.quantity := by
  induction qs generalizing f with
  | nil => simp [pushAll]
  | cons q qs ih =>
    unfold pushAll
    cases hp : f.inventory_.Push q with
    | none => simp
    | some inv =>
      simp only
      obtain ⟨_, rfl⟩ := Push_eq_some _ _ _ hp
      have hq0 : 0 ≤ q := hq q (List.mem_cons_self _ _)
      have h := ih { f with inventory_ := ⟨f.inventory_.mats_ ++ [q], f.inventory_.capacity_⟩ }
        (fun x hx => hq x (List.mem_cons_of_mem _ hx))
      have hstep : ResourceBuff.quantity ⟨f.inventory_.mats_ ++ [q], f.inventory_.capacity_⟩
          = f.inventory_.quantity + q := by
        simp [ResourceBuff.quantity]
      simp only at h
      rw [hstep] at h
      linarith

/-- For a positive throughput capacity and at least one commodity, the request
amount does not grow when the inventory space shrinks. -/
theorem RequestAmt_mono_space (f g : SinkFacility) (hcap : 0 < f.capacity_)
    (hn : 1 ≤ f.in_commods_.length) (hc : g.capacity_ = f.capacity_)
    (hl : g.in_commods_ = f.in_commods_) (hs : g.inventory_.space ≤ f.inventory_.space) :
    ∃ before after, f.RequestAmt_ = some before ∧ g.RequestAmt_ = some after ∧
      after ≤ before := by
  have hn0 : (0 : ℚ) < (f.in_commods_.length : ℚ) := by exact_mod_cast hn
  have hf : f.RequestAmt_ =
      requestAmtChain f.inventory_.space f.capacity_ f.in_commods_.length := rfl
  have hg : g.RequestAmt_ =
      requestAmtChain g.inventory_.space g.capacity_ g.in_commods_.length := rfl
  rw [hc, hl] at hg
  rw [hf, hg, requestAmtChain_eq, requestAmtChain_eq]
  refine ⟨_, _, rfl, rfl, ?_⟩
  by_cases g0 : g.inventory_.space ≤ 0
  · rw [if_pos g0]
    by_cases f0 : f.inventory_.space ≤ 0
    · rw [if_pos f0]
    · rw [if_neg f0]
      split
      · exact div_nonneg (not_le.mp f0).le hn0.le
      · exact div_nonneg hcap.le hn0.le
  · have f0 : ¬ f.inventory_.space ≤ 0 := fun h => g0 (le_trans hs h)
    rw [if_neg g0, if_neg f0]
    by_cases g1 : g.inventory_.space < f.capacity_
    · rw [if_pos g1]
      by_cases f1 : f.inventory_.space < f.capacity_
      · rw [if_pos f1]
        exact div_le_div_of_nonneg_right hs hn0.le
      · rw [if_neg f1]
        exact div_le_div_of_nonneg_right g1.le hn0.le
    · have f1 : ¬ f.inventory_.space < f.capacity_ :=
        fun h => g1 (lt_of_le_of_lt hs h)
      rw [if_neg g1, if_neg f1]

/-- C14: for every state with `throughput_capacity > 0` and `n ≥ 1`
commodities and every sequence of responses of non-negative quantity accepted
by `AcceptMatlTrades` or `AcceptGenRsrcTrades`, `RequestAmt_` returns before
and after the accept, and its value after is at most its value before. -/
theorem RequestAmt_after_accept_le (f : SinkFacility) (hcap : 0 < f.capacity_)
    (hn : 1 ≤ f.in_commods_.length) :
    (∀ rs : List (Trade Material × Material), (∀ it ∈ rs, 0 ≤ it.2.quantity) →
      ∃ before after, f.RequestAmt_ = some before ∧
        (f.AcceptMatlTrades rs).state.RequestAmt_ = some after ∧ after ≤ before) ∧
    (∀ rs : List (Trade GenericResource × GenericResource),
      (∀ it ∈ rs, 0 ≤ it.2.quantity) →
      ∃ before after, f.RequestAmt_ = some before ∧
        (f.AcceptGenRsrcTrades rs).state.RequestAmt_ = some after ∧ after ≤ before) := by
  have key : ∀ qs : List ℚ, (∀ q ∈ qs, 0 ≤ q) →
      ∃ before after, f.RequestAmt_ = some before ∧
        (pushAll f qs).state.RequestAmt_ = some after ∧ after ≤ before := by
    intro qs hq
    obtain ⟨h1, h2, _, h4⟩ := pushAll_frame f qs
    apply RequestAmt_mono_space f _ hcap hn h2 h1
    have hm := pushAll_held_mono f qs hq
    unfold ResourceBuff.space ResourceBuff.capacity
    rw [h4]
    linarith
  constructor
  · intro rs hq
    rw [AcceptMatlTrades_eq_pushAll]
    apply key
    intro q hmem
    obtain ⟨it, hit, rfl⟩ := List.mem_map.mp hmem
    exact hq it hit
  · intro rs hq
    rw [AcceptGenRsrcTrades_eq_pushAll]
    apply key
    intro q hmem
    obtain ⟨it, hit, rfl⟩ := List.mem_map.mp hmem
    exact hq it hit

/-- Witness for `RequestAmt_after_accept_le`: scenarios 1 and 2 of the spec,
capacity 100 and one commodity: the request is 100 before and 60 after
accepting a material trade of 40. -/
theorem RequestAmt_after_accept_le_witness :
    ∃ before after,
      SinkFacility.RequestAmt_ ⟨["A"], 100, ⟨[], 100⟩, 0⟩ = some before ∧
      (SinkFacility.AcceptMatlTrades ⟨["A"], 100, ⟨[], 100⟩, 0⟩
        [(⟨⟨⟨100⟩, "A"⟩, 40⟩, ⟨40⟩)]).state.RequestAmt_ = some after ∧
      after ≤ before :=
  (RequestAmt_after_accept_le ⟨["A"], 100, ⟨[], 100⟩, 0⟩ (by norm_num) (by decide)).1
    [(⟨⟨⟨100⟩, "A"⟩, 40⟩, ⟨40⟩)]
    (by
      intro it hit
      rw [List.mem_singleton.mp hit]
      norm_num)

/-! ### Clone independence -/

/-- Replacing the object at one address leaves every other address alone. -/
theorem deref_set_of_ne (objs : List SinkFacility) (a b : ℕ) (g : SinkFacility)
    (hab : a ≠ b) : Heap.deref ⟨objs.set a g⟩ b = Heap.deref ⟨objs⟩ b := by
  simp [Heap.deref, List.getElem?_set_ne hab]

/-- An accept of material trades on the object at `a` returns and changes no
object at another address. -/
theorem Heap_AcceptMatlTrades_frame (h : Heap) (a : ℕ) (f : SinkFacility)
    (ha : h.deref a = some f) (rs : List (Trade Material × Material)) :
    ∃ h2 t, h.AcceptMatlTrades a rs = some (h2, t) ∧
      ∀ b, a ≠ b → h2.deref b = h.deref b := by
  refine ⟨_, _, by simp [Heap.AcceptMatlTrades, ha]; exact ⟨rfl, rfl⟩, ?_⟩
  intro b hab
  exact deref_set_of_ne h.objs a b _ hab

/-- An accept of generic-resource trades on the object at `a` returns and
changes no object at another address. -/
theorem Heap_AcceptGenRsrcTrades_frame (h : Heap) (a : ℕ) (f : SinkFacility)
    (ha : h.deref a = some f) (rs : List (Trade GenericResource × GenericResource)) :
    ∃ h2 t, h.AcceptGenRsrcTrades a rs = some (h2, t) ∧
      ∀ b, a ≠ b → h2.deref b = h.deref b := by
  refine ⟨_, _, by simp [Heap.AcceptGenRsrcTrades, ha]; exact ⟨rfl, rfl⟩, ?_⟩
  intro b hab
  exact deref_set_of_ne h.objs a b _ hab

/-- C11: for every entity `e` and its clone `c = Clone(e)`, the clone is a
distinct object; accepting any sequence of trades (of either kind) into `c`
leaves the `held_quantity` of `e` unchanged, and accepting any sequence of
trades into `e` leaves the `held_quantity` of `c` unchanged. -/
theorem Clone_accept_independent (h : Heap) (e : ℕ) (f : SinkFacility)
    (he : h.deref e = some f) :
    ∃ h1 c, h.Clone e = some (h1, c) ∧ c ≠ e ∧
      h1.deref e = some f ∧ h1.deref c = some f.Clone ∧
      (∀ rs, ∃ h2 t, h1.AcceptMatlTrades c rs = some (h2, t) ∧
        h2.held_quantity e = h1.held_quantity e) ∧
      (∀ rs, ∃ h2 t, h1.AcceptGenRsrcTrades c rs = some (h2, t) ∧
        h2.held_quantity e = h1.held_quantity e) ∧
      (∀ rs, ∃ h2 t, h1.AcceptMatlTrades e rs = some (h2, t) ∧
        h2.held_quantity c = h1.held_quantity c) ∧
      (∀ rs, ∃ h2 t, h1.AcceptGenRsrcTrades e rs = some (h2, t) ∧
        h2.held_quantity c = h1.held_quantity c) := by
  have hlt : e < h.objs.length := by
    unfold Heap.deref at he
    exact (List.getElem?_eq_some.mp he).1
  have hne : h.objs.length ≠ e := Nat.ne_of_gt hlt
  have h1e : Heap.deref ⟨h.objs ++ [f.Clone]⟩ e = some f := by
    unfold Heap.deref at he ⊢
    simp only
    rw [List.getElem?_append_left hlt]
    exact he
  have h1c : Heap.deref ⟨h.objs ++ [f.Clone]⟩ h.objs.length = some f.Clone := by
    simp [Heap.deref]
  refine ⟨⟨h.objs ++ [f.Clone]⟩, h.objs.length, by simp [Heap.Clone, he], hne, h1e, h1c,
    ?_, ?_, ?_, ?_⟩
  · intro rs
    obtain ⟨h2, t, hacc, hframe⟩ := Heap_AcceptMatlTrades_frame _ _ _ h1c rs
    exact ⟨h2, t, hacc, by unfold Heap.held_quantity; rw [hframe e hne]⟩
  · intro rs
    obtain ⟨h2, t, hacc, hframe⟩ := Heap_AcceptGenRsrcTrades_frame _ _ _ h1c rs
    exact ⟨h2, t, hacc, by unfold Heap.held_quantity; rw [hframe e hne]⟩
  · intro rs
    obtain ⟨h2, t, hacc, hframe⟩ := Heap_AcceptMatlTrades_frame _ _ _ h1e rs
    exact ⟨h2, t, hacc, by unfold Heap.held_quantity; rw [hframe _ hne.symm]⟩
  · intro rs
    obtain ⟨h2, t, hacc, hframe⟩ := Heap_AcceptGenRsrcTrades_frame _ _ _ h1e rs
    exact ⟨h2, t, hacc, by unfold Heap.held_quantity; rw [hframe _ hne.symm]⟩

/-- Witness for `Clone_accept_independent`: a heap holding one facility
(throughput 100, max inventory 100, one commodity, nothing held) at address 0;
its clone is allocated at another address and accepts into either object leave
the other's held quantity as it is. -/
theorem Clone_accept_independent_witness :
    ∃ h1 c, Heap.Clone (⟨[⟨["A"], 100, ⟨[], 100⟩, 0⟩]⟩ : Heap) 0 = some (h1, c) ∧ c ≠ 0 ∧
      h1.deref 0 = some (⟨["A"], 100, ⟨[], 100⟩, 0⟩ : SinkFacility) ∧
      h1.deref c = some (SinkFacility.Clone (⟨["A"], 100, ⟨[], 100⟩, 0⟩ : SinkFacility)) ∧
      (∀ rs, ∃ h2 t, h1.AcceptMatlTrades c rs = some (h2, t) ∧
        h2.held_quantity 0 = h1.held_quantity 0) ∧
      (∀ rs, ∃ h2 t, h1.AcceptGenRsrcTrades c rs = some (h2, t) ∧
        h2.held_quantity 0 = h1.held_quantity 0) ∧
      (∀ rs, ∃ h2 t, h1.AcceptMatlTrades 0 rs = some (h2, t) ∧
        h2.held_quantity c = h1.held_quantity c) ∧
      (∀ rs, ∃ h2 t, h1.AcceptGenRsrcTrades 0 rs = some (h2, t) ∧
        h2.held_quantity c = h1.held_quantity c) :=
  Clone_accept_independent (⟨[⟨["A"], 100, ⟨[], 100⟩, 0⟩]⟩ : Heap) 0
    (⟨["A"], 100, ⟨[], 100⟩, 0⟩ : SinkFacility) rfl

end cycamore
